import Mathlib

/-!
# Verification of the WhatsApp bridge schema-migration runner

Shallow embedding of `src/whatsapp-bridge/migrations.go` (package `main`).
The Go code is a minimal migration applier over a SQLite database:

* `Migration` — `{Version int, Name string, SQL string}`.
* `InitMigrationTable` — `CREATE TABLE IF NOT EXISTS migrations (version INTEGER
  PRIMARY KEY, name TEXT NOT NULL, applied_at TIMESTAMP DEFAULT CURRENT_TIMESTAMP)`.
* `GetAppliedMigrations` — `SELECT version FROM migrations ORDER BY version`.
* `LoadMigrations` — globs `migrations/*.sql`, splits each base filename on the
  first `_` via `strings.SplitN(filename, "_", 2)`, parses the part before the
  underscore with `strconv.Atoi`, skips files that do not split or do not parse,
  takes the file content as the SQL body, strips a trailing `.sql` from the
  remainder for the name, and sorts the result by version.
* `ApplyMigration` — executes the body with `db.Exec`, then inserts
  `(version, name)` into `migrations`; wraps each failure in an error message.
* `RunMigrations` — init table, read applied versions into a lookup map, load
  migrations, and apply each migration whose version is not in the map, stopping
  at the first error.

The database is modelled as an explicit state: the set of rows of the
bookkeeping table (`applied_at` timestamps are not modelled) plus a log of the
SQL bodies executed so far, which stands for the committed side effects of
migration bodies.  Failures of `db.Exec` on a migration body and non-key
failures of the bookkeeping `INSERT` are driven by an environment of oracles;
the primary-key violation on `version` and the missing-table failure are
modelled deterministically, following the schema created by
`InitMigrationTable`.  The Go `sort.Slice` call is an unstable sort by
`Version <`; the embedding uses insertion sort by `Version ≤`, which produces a
version-sorted permutation of the same list, the only properties of the sort
the code relies on.
-/

namespace WhatsappBridge

/-- `Migration` struct of `migrations.go`. -/
structure Migration where
  Version : Int
  Name : String
  SQL : String
deriving DecidableEq

/-- One row of the bookkeeping table `migrations` (the `applied_at` timestamp
column, filled by SQLite at insertion, is not modelled). -/
structure AppliedRec where
  version : Int
  name : String
deriving DecidableEq

/-- The database state: whether the bookkeeping table exists, its rows in
insertion order, and the log of migration bodies executed so far (standing for
their committed side effects). -/
structure DB where
  inited : Bool
  records : List AppliedRec
  execLog : List String
deriving DecidableEq

/-- Failure oracles for the two `db.Exec` calls of `ApplyMigration`:
`execResult body` is `some cause` when executing the migration body errors, and
`insertResult v n` is `some cause` when the bookkeeping `INSERT` fails for a
reason other than the deterministic ones (missing table, duplicate key). -/
structure Env where
  execResult : String → Option String
  insertResult : Int → String → Option String

/-- `strings.SplitN(s, sep, 2)` on a one-character separator, as the pair of
the part before the first occurrence and the remainder; `none` when the
separator does not occur (the Go call then returns a one-element slice and the
file is skipped). -/
def splitFirstAux (sep : Char) : List Char → Option (List Char × List Char)
  | [] => none
  | c :: rest =>
    if c = sep then some ([], rest)
    else
      match splitFirstAux sep rest with
      | none => none
      | some (a, b) => some (c :: a, b)

/-- String version of `splitFirstAux`. -/
def splitFirst (sep : Char) (s : String) : Option (String × String) :=
  match splitFirstAux sep s.data with
  | none => none
  | some (a, b) => some (String.mk a, String.mk b)

/-- Numeric value of a list of decimal digits, most significant first. -/
def digitsVal (ds : List Char) : Nat :=
  ds.foldl (fun acc c => acc * 10 + (c.toNat - 48)) 0

/-- `strconv.Atoi`: an optional sign followed by at least one ASCII decimal
digit, rejected when the value does not fit in a 64-bit `int` (Go then returns
`ErrRange` and the caller skips the file). -/
def atoi (s : String) : Option Int :=
  let core : List Char → Int → Option Int := fun ds sign =>
    if ds ≠ [] ∧ ds.all Char.isDigit then
      let v : Int := sign * (digitsVal ds : Int)
      if -9223372036854775808 ≤ v ∧ v ≤ 9223372036854775807 then some v else none
    else none
  match s.data with
  | [] => none
  | '-' :: rest => core rest (-1)
  | '+' :: rest => core rest 1
  | ds => core ds 1

/-- `strings.TrimSuffix(s, ".sql")`. -/
def stripSqlSuffix (s : String) : String :=
  match s.data.reverse with
  | 'l' :: 'q' :: 's' :: '.' :: rest => String.mk rest.reverse
  | _ => s

/-- The per-file body of the `LoadMigrations` loop: split the base filename on
the first underscore, parse the version with `Atoi`, strip `.sql` from the
remainder for the name; `none` means the file is skipped (`continue`). -/
def parseMigrationFile (filename content : String) : Option Migration :=
  match splitFirst '_' filename with
  | none => none
  | some (pr, rest) =>
    match atoi pr with
    | none => none
    | some v => some ⟨v, stripSqlSuffix rest, content⟩

/-- Ordering used to sort migrations: `migrations[i].Version < migrations[j].Version`
in Go; the embedding sorts by the reflexive closure `≤`. -/
def migLE (a b : Migration) : Prop := a.Version ≤ b.Version

instance : DecidableRel migLE := fun a b => Int.decLe a.Version b.Version

instance : IsTotal Migration migLE := ⟨fun a b => Int.le_total a.Version b.Version⟩

instance : IsTrans Migration migLE := ⟨fun _ _ _ h h2 => Int.le_trans h h2⟩

/-- `LoadMigrations`, over the globbed directory listing given as a list of
(base filename, file content) pairs: keep the files that parse, sorted by
version. -/
def LoadMigrations (files : List (String × String)) : List Migration :=
  List.insertionSort migLE (files.filterMap fun f => parseMigrationFile f.1 f.2)

/-- `InitMigrationTable`: `CREATE TABLE IF NOT EXISTS` — idempotently ensures
the bookkeeping table exists. -/
def initMigrationTable (db : DB) : DB := { db with inited := true }

/-- `GetAppliedMigrations`: `SELECT version FROM migrations ORDER BY version`. -/
def GetAppliedMigrations (db : DB) : List Int :=
  List.insertionSort (fun a b => a ≤ b) (db.records.map AppliedRec.version)

instance : DecidableRel (fun a b : Int => a ≤ b) := fun a b => Int.decLe a b

/-- SQLite error for an `INSERT` violating the `version INTEGER PRIMARY KEY`
constraint of the table created by `InitMigrationTable`. -/
def pkViolation : String := "UNIQUE constraint failed: migrations.version"

/-- SQLite error for touching the bookkeeping table before it was created. -/
def noTable : String := "no such table: migrations"

/-- The `INSERT INTO migrations (version, name) VALUES (?, ?)` step: fails when
the table does not exist, when the version violates the primary key, or when
the insert oracle of the environment fails; otherwise appends the row. -/
def insertRecord (env : Env) (v : Int) (n : String) (db : DB) : DB × Option String :=
  if db.inited = false then (db, some noTable)
  else if v ∈ db.records.map AppliedRec.version then (db, some pkViolation)
  else
    match env.insertResult v n with
    | some cause => (db, some cause)
    | none => ({ db with records := db.records ++ [⟨v, n⟩] }, none)

/-- `ApplyMigration`: execute the body (recording its side effects in the log),
then record the migration; each failure is wrapped exactly as the Go
`fmt.Errorf` calls wrap it. -/
def ApplyMigration (env : Env) (m : Migration) (db : DB) : DB × Option String :=
  match env.execResult m.SQL with
  | some cause =>
    (db, some ("failed to apply migration " ++ toString m.Version ++ " (" ++
      m.Name ++ "): " ++ cause))
  | none =>
    let db1 : DB := { db with execLog := db.execLog ++ [m.SQL] }
    match insertRecord env m.Version m.Name db1 with
    | (db2, some cause) =>
      (db2, some ("failed to record migration " ++ toString m.Version ++ ": " ++ cause))
    | (db2, none) => (db2, none)

/-- The `for _, migration := range migrations` loop of `RunMigrations`: skip
versions present in the applied map, apply the rest, return the first error. -/
def runPending (env : Env) (applied : List Int) : List Migration → DB → DB × Option String
  | [], db => (db, none)
  | m :: rest, db =>
    if m.Version ∈ applied then runPending env applied rest db
    else
      match ApplyMigration env m db with
      | (db1, none) => runPending env applied rest db1
      | (db1, some e) => (db1, some e)

/-- `RunMigrations`: init the table, read the applied set, load the migrations,
apply the pending ones in order. -/
def RunMigrations (env : Env) (files : List (String × String)) (db : DB) :
    DB × Option String :=
  let db0 := initMigrationTable db
  let applied := GetAppliedMigrations db0
  let migs := LoadMigrations files
  runPending env applied migs db0

/-- The migrations a run over `files` from applied-set `applied` treats as
pending, in the order the loop reaches them. -/
def pendingMigrations (files : List (String × String)) (applied : List Int) :
    List Migration :=
  (LoadMigrations files).filter fun m => decide (m.Version ∉ applied)

/-- The bookkeeping row `ApplyMigration` inserts for a migration. -/
def recOf (m : Migration) : AppliedRec := ⟨m.Version, m.Name⟩

/-- The sequence of versions the `RunMigrations` loop visits, in loop order. -/
def visitedVersions (files : List (String × String)) : List Int :=
  (LoadMigrations files).map Migration.Version

/-! ### Helper lemmas -/

/-- A successful `ApplyMigration` call means: the body executed without error,
the table existed, the version was fresh, the insert oracle succeeded, and the
state gained exactly one row and one log entry. -/
theorem applyMigration_success (env : Env) (m : Migration) (db db' : DB)
    (h : ApplyMigration env m db = (db', none)) :
    env.execResult m.SQL = none ∧ db.inited = true ∧
      m.Version ∉ db.records.map AppliedRec.version ∧
      env.insertResult m.Version m.Name = none ∧
      db' = { db with records := db.records ++ [recOf m],
                      execLog := db.execLog ++ [m.SQL] } := by
  unfold ApplyMigration insertRecord at h
  cases hex : env.execResult m.SQL with
  | some c => rw [hex] at h; simp at h
  | none =>
    rw [hex] at h
    simp only at h
    by_cases hin : db.inited = false
    · rw [if_pos hin] at h; simp at h
    · rw [if_neg hin] at h
      by_cases hpk : m.Version ∈ db.records.map AppliedRec.version
      · rw [if_pos hpk] at h; simp at h
      · rw [if_neg hpk] at h
        cases hor : env.insertResult m.Version m.Name with
        | some c => rw [hor] at h; simp at h
        | none =>
          rw [hor] at h
          simp only [Prod.mk.injEq] at h
          refine ⟨rfl, by simpa using hin, hpk, rfl, ?_⟩
          exact h.1.symm

/-- Converse direction: under the success conditions, `ApplyMigration` returns
the extended state and no error. -/
theorem applyMigration_eq_success (env : Env) (m : Migration) (db : DB)
    (hex : env.execResult m.SQL = none) (hin : db.inited = true)
    (hpk : m.Version ∉ db.records.map AppliedRec.version)
    (hor : env.insertResult m.Version m.Name = none) :
    ApplyMigration env m db =
      ({ db with records := db.records ++ [recOf m],
                 execLog := db.execLog ++ [m.SQL] }, none) := by
  unfold ApplyMigration insertRecord
  rw [hex]
  simp only [hin, hpk, hor]
  simp [recOf]

/-- A failing `ApplyMigration` call leaves the bookkeeping rows and the
`inited` flag unchanged, and at most appends the migration body to the log. -/
theorem applyMigration_error (env : Env) (m : Migration) (db db' : DB) (e : String)
    (h : ApplyMigration env m db = (db', some e)) :
    db'.records = db.records ∧ db'.inited = db.inited ∧
      (db'.execLog = db.execLog ∨ db'.execLog = db.execLog ++ [m.SQL]) := by
  unfold ApplyMigration insertRecord at h
  cases hex : env.execResult m.SQL with
  | some c =>
    rw [hex] at h
    simp only [Prod.mk.injEq] at h
    rw [← h.1]
    exact ⟨rfl, rfl, Or.inl rfl⟩
  | none =>
    rw [hex] at h
    simp only at h
    by_cases hin : db.inited = false
    · rw [if_pos hin] at h
      simp only [Prod.mk.injEq] at h
      rw [← h.1]
      exact ⟨rfl, rfl, Or.inr rfl⟩
    · rw [if_neg hin] at h
      by_cases hpk : m.Version ∈ db.records.map AppliedRec.version
      · rw [if_pos hpk] at h
        simp only [Prod.mk.injEq] at h
        rw [← h.1]
        exact ⟨rfl, rfl, Or.inr rfl⟩
      · rw [if_neg hpk] at h
        cases hor : env.insertResult m.Version m.Name with
        | some c =>
          rw [hor] at h
          simp only [Prod.mk.injEq] at h
          rw [← h.1]
          exact ⟨rfl, rfl, Or.inr rfl⟩
        | none => rw [hor] at h; simp at h

/-- A successful pass of the `RunMigrations` loop appends exactly one
bookkeeping row and one log entry per pending migration, in loop order. -/
theorem runPending_success (env : Env) (applied : List Int) :
    ∀ (migs : List Migration) (db db' : DB),
      runPending env applied migs db = (db', none) →
      db'.inited = db.inited ∧
        db'.records =
          db.records ++ (migs.filter fun m => decide (m.Version ∉ applied)).map recOf ∧
        db'.execLog =
          db.execLog ++ (migs.filter fun m => decide (m.Version ∉ applied)).map Migration.SQL
  | [], db, db', h => by
    unfold runPending at h
    simp only [Prod.mk.injEq] at h
    rw [← h.1]
    simp
  | m :: rest, db, db', h => by
    unfold runPending at h
    by_cases hm : m.Version ∈ applied
    · rw [if_pos hm] at h
      have ih := runPending_success env applied rest db db' h
      rw [List.filter_cons_of_neg (by simpa using hm)]
      exact ih
    · rw [if_neg hm] at h
      cases happ : ApplyMigration env m db with
      | mk db1 eo =>
        rw [happ] at h
        cases eo with
        | some e => simp at h
        | none =>
          have ih := runPending_success env applied rest db1 db' h
          obtain ⟨_, _, _, _, hdb1⟩ := applyMigration_success env m db db1 happ
          subst hdb1
          rw [List.filter_cons_of_pos (by simpa using hm)]
          refine ⟨by simpa using ih.1, ?_, ?_⟩
          · rw [ih.2.1]
            simp [List.append_assoc]
          · rw [ih.2.2]
            simp [List.append_assoc]

/-- A failing pass of the loop splits the pending list as `pre ++ m :: post`:
every migration of `pre` was applied and committed, the returned state and
error are exactly those of the `ApplyMigration` call on `m` from the state
reached after `pre`, and nothing of `post` was attempted. -/
theorem runPending_failure (env : Env) (applied : List Int) :
    ∀ (migs : List Migration) (db db' : DB) (e : String),
      runPending env applied migs db = (db', some e) →
      ∃ pre m post,
        (migs.filter fun x => decide (x.Version ∉ applied)) = pre ++ m :: post ∧
        ApplyMigration env m
          { db with records := db.records ++ pre.map recOf,
                    execLog := db.execLog ++ pre.map Migration.SQL } = (db', some e)
  | [], db, db', e, h => by
    unfold runPending at h
    simp at h
  | m :: rest, db, db', e, h => by
    unfold runPending at h
    by_cases hm : m.Version ∈ applied
    · rw [if_pos hm] at h
      have ih := runPending_failure env applied rest db db' e h
      rw [List.filter_cons_of_neg (by simpa using hm)]
      exact ih
    · rw [if_neg hm] at h
      cases happ : ApplyMigration env m db with
      | mk db1 eo =>
        rw [happ] at h
        cases eo with
        | some e0 =>
          simp only [Prod.mk.injEq, Option.some.injEq] at h
          refine ⟨[], m, rest.filter fun x => decide (x.Version ∉ applied),
            by rw [List.filter_cons_of_pos (by simpa using hm)]; rfl, ?_⟩
          simpa [h.1, h.2] using happ
        | none =>
          have ih := runPending_failure env applied rest db1 db' e h
          obtain ⟨pre, mf, post, hsplit, happf⟩ := ih
          obtain ⟨_, _, _, _, hdb1⟩ := applyMigration_success env m db db1 happ
          refine ⟨m :: pre, mf, post,
            by rw [List.filter_cons_of_pos (by simpa using hm), hsplit]; rfl, ?_⟩
          subst hdb1
          simpa [List.append_assoc] using happf

/-- When the version of every migration is already in the applied set, the loop is
a no-op returning the state unchanged and no error. -/
theorem runPending_of_all_applied (env : Env) (applied : List Int) :
    ∀ (migs : List Migration) (db : DB), (∀ m ∈ migs, m.Version ∈ applied) →
      runPending env applied migs db = (db, none)
  | [], _, _ => rfl
  | m :: rest, db, hall => by
    unfold runPending
    rw [if_pos (hall m (List.mem_cons_self m rest))]
    exact runPending_of_all_applied env applied rest db
      (fun x hx => hall x (List.mem_cons_of_mem m hx))

/-- Membership in `GetAppliedMigrations` is membership among the versions of the stored
rows. -/
theorem mem_getAppliedMigrations (db : DB) (v : Int) :
    v ∈ GetAppliedMigrations db ↔ v ∈ db.records.map AppliedRec.version :=
  List.mem_insertionSort _

/-- `InitMigrationTable` is the identity on a state whose table exists. -/
theorem initMigrationTable_eq_self (db : DB) (h : db.inited = true) :
    initMigrationTable db = db := by
  cases db with
  | mk i r e =>
    cases h
    rfl

/-- The invariant of section 3 of the spec, relative to a universe `M` of known migrations:
every bookkeeping row was produced by a known migration whose body is in the
log of successfully executed bodies. -/
def Inv (M : List Migration) (db : DB) : Prop :=
  ∀ r ∈ db.records, ∃ m ∈ M, m.Version = r.version ∧ m.Name = r.name ∧ m.SQL ∈ db.execLog

/-- The invariant survives growth of the execution log. -/
theorem inv_execLog_mono (M : List Migration) (db : DB) (l : List String)
    (h : Inv M db) : Inv M { db with execLog := db.execLog ++ l } := by
  intro r hr
  obtain ⟨mm, hmm, h1, h2, h3⟩ := h r hr
  exact ⟨mm, hmm, h1, h2, List.mem_append_left _ h3⟩

/-- The invariant survives inserting the row of a known migration whose body
was just appended to the log. -/
theorem inv_insert (M : List Migration) (db : DB) (m : Migration) (hm : m ∈ M)
    (h : Inv M db) :
    Inv M { db with records := db.records ++ [recOf m],
                    execLog := db.execLog ++ [m.SQL] } := by
  intro r hr
  rcases List.mem_append.1 hr with hr | hr
  · obtain ⟨mm, hmm, h1, h2, h3⟩ := h r hr
    exact ⟨mm, hmm, h1, h2, List.mem_append_left _ h3⟩
  · have hrm : r = recOf m := by simpa using hr
    subst hrm
    exact ⟨m, hm, rfl, rfl, List.mem_append_right _ (by simp)⟩

/-- The state after `ApplyMigration` is the old state, the old state with the
body logged, or the old state with the body logged and the row inserted. -/
theorem applyMigration_state_cases (env : Env) (m : Migration) (db : DB) :
    (ApplyMigration env m db).1 = db ∨
    (ApplyMigration env m db).1 = { db with execLog := db.execLog ++ [m.SQL] } ∨
    (ApplyMigration env m db).1 =
      { db with records := db.records ++ [recOf m],
                execLog := db.execLog ++ [m.SQL] } := by
  unfold ApplyMigration insertRecord
  cases hex : env.execResult m.SQL with
  | some c => exact Or.inl rfl
  | none =>
    simp only
    by_cases hin : db.inited = false
    · rw [if_pos hin]
      exact Or.inr (Or.inl rfl)
    · rw [if_neg hin]
      by_cases hpk : m.Version ∈ db.records.map AppliedRec.version
      · rw [if_pos hpk]
        exact Or.inr (Or.inl rfl)
      · rw [if_neg hpk]
        cases hor : env.insertResult m.Version m.Name with
        | some c => exact Or.inr (Or.inl rfl)
        | none => exact Or.inr (Or.inr rfl)

/-- `ApplyMigration` on a known migration preserves the invariant. -/
theorem inv_applyMigration (M : List Migration) (env : Env) (m : Migration) (db : DB)
    (hm : m ∈ M) (h : Inv M db) : Inv M (ApplyMigration env m db).1 := by
  rcases applyMigration_state_cases env m db with hc | hc | hc <;> rw [hc]
  · exact h
  · exact inv_execLog_mono M db [m.SQL] h
  · exact inv_insert M db m hm h

/-- The `RunMigrations` loop preserves the invariant when every migration of
the list is known. -/
theorem inv_runPending (M : List Migration) (env : Env) (applied : List Int) :
    ∀ (migs : List Migration) (db : DB), (∀ m ∈ migs, m ∈ M) → Inv M db →
      Inv M (runPending env applied migs db).1
  | [], _, _, h => h
  | m :: rest, db, hall, h => by
    unfold runPending
    by_cases hm : m.Version ∈ applied
    · rw [if_pos hm]
      exact inv_runPending M env applied rest db
        (fun x hx => hall x (List.mem_cons_of_mem m hx)) h
    · rw [if_neg hm]
      have hinv1 : Inv M (ApplyMigration env m db).1 :=
        inv_applyMigration M env m db (hall m (List.mem_cons_self m rest)) h
      cases happ : ApplyMigration env m db with
      | mk db1 eo =>
        rw [happ] at hinv1
        cases eo with
        | some e => exact hinv1
        | none =>
          exact inv_runPending M env applied rest db1
            (fun x hx => hall x (List.mem_cons_of_mem m hx)) hinv1

/-! ### Concrete fixtures used by the witnesses and counterexamples -/

/-- Environment in which every body execution and every insert succeeds. -/
def envOk : Env := ⟨fun _ => none, fun _ _ => none⟩

/-- Environment in which executing the body `"SQLB"` fails. -/
def envExecFailB : Env :=
  ⟨fun s => if s = "SQLB" then some "near B: syntax error" else none, fun _ _ => none⟩

/-- Environment in which every bookkeeping insert fails (e.g. a full disk). -/
def envInsFail : Env := ⟨fun _ => none, fun _ _ => some "disk I/O error"⟩

/-- Directory with three well-formed migration files, versions 1, 2, 3. -/
def files3 : List (String × String) :=
  [("1_a.sql", "SQLA"), ("2_b.sql", "SQLB"), ("3_c.sql", "SQLC")]

/-- Fresh database in which version 2 is already recorded as applied. -/
def dbApplied2 : DB := ⟨false, [⟨2, "b"⟩], []⟩

/-- Empty database whose bookkeeping table exists. -/
def dbInit : DB := ⟨true, [], []⟩

/-- A sample migration. -/
def mOne : Migration := ⟨1, "a", "SQLA"⟩

/-- Fresh, empty database. -/
def dbEmpty : DB := ⟨false, [], []⟩

/-- The error `RunMigrations` surfaces when executing `"SQLB"` fails under
`envExecFailB`. -/
def errB : String := "failed to apply migration 2 (b): near B: syntax error"

-- Sanity checks of the embedding on the one real migration file of the repository.
example :
    parseMigrationFile "001_add_starred_column.sql"
      "ALTER TABLE messages ADD COLUMN starred BOOLEAN DEFAULT FALSE;" =
    some ⟨1, "add_starred_column",
      "ALTER TABLE messages ADD COLUMN starred BOOLEAN DEFAULT FALSE;"⟩ := by decide

example : atoi "-1" = some (-1) := by decide

example : atoi "abc" = none := by decide

example : splitFirst '_' "nosep.sql" = none := by decide

example :
    LoadMigrations [("3_c.sql", "C"), ("1_a.sql", "A"), ("2_b.sql", "B")] =
    [⟨1, "a", "A"⟩, ⟨2, "b", "B"⟩, ⟨3, "c", "C"⟩] := by decide

example :
    RunMigrations ⟨fun _ => none, fun _ _ => none⟩ [("1_a.sql", "A")] ⟨false, [], []⟩ =
    (⟨true, [⟨1, "a"⟩], ["A"]⟩, none) := by decide

/-! ### Claims -/

/-- C1: a successful run applies exactly the loaded migrations whose versions
are not in the applied-set, in ascending version order (the bookkeeping rows
and the execution log grow by exactly the pending migrations, in the
version-sorted order of the pending list); already-applied versions are not
executed. -/
theorem c1_successful_run_applies_pending (env : Env) (files : List (String × String))
    (db : DB) (h : (RunMigrations env files db).2 = none) :
    (RunMigrations env files db).1.records =
      db.records ++
        (pendingMigrations files (GetAppliedMigrations (initMigrationTable db))).map recOf ∧
    (RunMigrations env files db).1.execLog =
      db.execLog ++
        (pendingMigrations files
          (GetAppliedMigrations (initMigrationTable db))).map Migration.SQL ∧
    List.Sorted migLE (pendingMigrations files (GetAppliedMigrations (initMigrationTable db))) := by
  have hrun : runPending env (GetAppliedMigrations (initMigrationTable db))
      (LoadMigrations files) (initMigrationTable db) =
      ((RunMigrations env files db).1, none) := by rw [← h]; rfl
  have hs := runPending_success env (GetAppliedMigrations (initMigrationTable db))
    (LoadMigrations files) (initMigrationTable db) (RunMigrations env files db).1 hrun
  exact ⟨hs.2.1, hs.2.2,
    List.Sorted.filter _ (List.sorted_insertionSort migLE _)⟩

/-- Witness for C1: migrations `[1,2,3]` with `2` already applied — the run
succeeds, applies exactly `{1,3}` with `1` before `3`, and records matching
rows. -/
theorem c1_successful_run_applies_pending_witness :
    ((RunMigrations envOk files3 dbApplied2).2 = none ∧
      (RunMigrations envOk files3 dbApplied2).1.records =
        dbApplied2.records ++
          (pendingMigrations files3
            (GetAppliedMigrations (initMigrationTable dbApplied2))).map recOf) ∧
    (RunMigrations envOk files3 dbApplied2).1.execLog = ["SQLA", "SQLC"] ∧
    (RunMigrations envOk files3 dbApplied2).1.records = [⟨2, "b"⟩, ⟨1, "a"⟩, ⟨3, "c"⟩] :=
  ⟨⟨by decide, (c1_successful_run_applies_pending envOk files3 dbApplied2 (by decide)).1⟩,
    by decide, by decide⟩

/-- C2: every operation of the migration applier preserves the invariant that
each bookkeeping row belongs to a known migration whose body has executed
without error (`GetAppliedMigrations` and `LoadMigrations` do not change the
state at all, being functions of it). -/
theorem c2_invariant_preserved (M : List Migration) :
    (∀ db : DB, Inv M db → Inv M (initMigrationTable db)) ∧
    (∀ (env : Env) (m : Migration) (db : DB), m ∈ M → Inv M db →
      Inv M (ApplyMigration env m db).1) ∧
    (∀ (env : Env) (files : List (String × String)) (db : DB),
      (∀ m ∈ LoadMigrations files, m ∈ M) → Inv M db →
      Inv M (RunMigrations env files db).1) :=
  ⟨fun _ h => h,
   fun env m db hm h => inv_applyMigration M env m db hm h,
   fun env files db hall h =>
     inv_runPending M env (GetAppliedMigrations (initMigrationTable db))
       (LoadMigrations files) (initMigrationTable db) hall h⟩

/-- Witness for C2 at a concrete migration, environment and database. -/
theorem c2_invariant_preserved_witness :
    Inv [mOne] (ApplyMigration envOk mOne dbInit).1 ∧
    Inv [mOne] (RunMigrations envOk [("1_a.sql", "SQLA")] ⟨false, [], []⟩).1 :=
  ⟨(c2_invariant_preserved [mOne]).2.1 envOk mOne dbInit (by decide)
     (fun r hr => absurd hr (List.not_mem_nil r)),
   (c2_invariant_preserved [mOne]).2.2 envOk [("1_a.sql", "SQLA")] ⟨false, [], []⟩
     (by decide) (fun r hr => absurd hr (List.not_mem_nil r))⟩

/-- C3: when the record-insert step fails after the body executed, the call
returns an error, the effects of the body stay committed (the log keeps the entry),
no row for the version exists, and any later successful run re-applies the
migration (its row and its body both appear in the result of that run). -/
theorem c3_record_failure_reapplied (env : Env) (m : Migration) (db : DB) (cause : String)
    (hexec : env.execResult m.SQL = none)
    (hinited : db.inited = true)
    (hfresh : m.Version ∉ db.records.map AppliedRec.version)
    (hins : env.insertResult m.Version m.Name = some cause) :
    ApplyMigration env m db =
      ({ db with execLog := db.execLog ++ [m.SQL] },
        some ("failed to record migration " ++ toString m.Version ++ ": " ++ cause)) ∧
    (ApplyMigration env m db).1.records = db.records ∧
    (∀ (env2 : Env) (files : List (String × String)),
      m ∈ LoadMigrations files →
      (RunMigrations env2 files (ApplyMigration env m db).1).2 = none →
      recOf m ∈ (RunMigrations env2 files (ApplyMigration env m db).1).1.records ∧
        m.SQL ∈
          ((RunMigrations env2 files (ApplyMigration env m db).1).1.execLog.drop
            db.execLog.length)) := by
  have h1 : ApplyMigration env m db =
      ({ db with execLog := db.execLog ++ [m.SQL] },
        some ("failed to record migration " ++ toString m.Version ++ ": " ++ cause)) := by
    unfold ApplyMigration insertRecord
    rw [hexec]
    simp [hinited, hfresh, hins]
  have hE : (ApplyMigration env m db).1 = { db with execLog := db.execLog ++ [m.SQL] } := by
    rw [h1]
  refine ⟨h1, by rw [hE], ?_⟩
  intro env2 files hmem hok
  rw [hE] at hok ⊢
  have hrun : runPending env2
      (GetAppliedMigrations (initMigrationTable { db with execLog := db.execLog ++ [m.SQL] }))
      (LoadMigrations files)
      (initMigrationTable { db with execLog := db.execLog ++ [m.SQL] }) =
      ((RunMigrations env2 files { db with execLog := db.execLog ++ [m.SQL] }).1, none) := by
    rw [← hok]
    rfl
  have hs := runPending_success env2 _ (LoadMigrations files) _ _ hrun
  have hnot : m.Version ∉
      GetAppliedMigrations (initMigrationTable { db with execLog := db.execLog ++ [m.SQL] }) := by
    intro hv
    exact hfresh ((mem_getAppliedMigrations _ _).1 hv)
  have hpend : m ∈ (LoadMigrations files).filter
      (fun x => decide (x.Version ∉
        GetAppliedMigrations (initMigrationTable { db with execLog := db.execLog ++ [m.SQL] }))) :=
    List.mem_filter.2 ⟨hmem, by simpa using hnot⟩
  constructor
  · rw [hs.2.1]
    exact List.mem_append_right _ (List.mem_map_of_mem recOf hpend)
  · rw [hs.2.2]
    simp only [initMigrationTable]
    rw [List.append_assoc, List.drop_left]
    exact List.mem_append_left _ (List.mem_singleton_self _)

/-- Witness for C3: a failing insert oracle on an empty initialized database,
followed by a clean run over a directory containing the migration. -/
theorem c3_record_failure_reapplied_witness :
    ApplyMigration envInsFail mOne dbInit =
      ({ dbInit with execLog := dbInit.execLog ++ [mOne.SQL] },
        some ("failed to record migration " ++ toString mOne.Version ++ ": " ++
          "disk I/O error")) ∧
    (ApplyMigration envInsFail mOne dbInit).1.records = dbInit.records ∧
    (∀ (env2 : Env) (files : List (String × String)),
      mOne ∈ LoadMigrations files →
      (RunMigrations env2 files (ApplyMigration envInsFail mOne dbInit).1).2 = none →
      recOf mOne ∈ (RunMigrations env2 files (ApplyMigration envInsFail mOne dbInit).1).1.records ∧
        mOne.SQL ∈
          ((RunMigrations env2 files
            (ApplyMigration envInsFail mOne dbInit).1).1.execLog.drop
              dbInit.execLog.length)) :=
  c3_record_failure_reapplied envInsFail mOne dbInit "disk I/O error"
    (by decide) (by decide) (by decide) (by decide)

/-- C4: a failing run stops at the first failing pending migration `m`: the
pending list splits as `pre ++ m :: post`, the final state and error are
exactly those of the `ApplyMigration` call on `m` from the state reached after
applying all of `pre` (so everything in `pre` is applied and committed), and
the final log shows nothing of `post` was attempted. -/
theorem c4_failure_stops_run (env : Env) (files : List (String × String)) (db : DB)
    (e : String) (h : (RunMigrations env files db).2 = some e) :
    ∃ pre m post,
      pendingMigrations files (GetAppliedMigrations (initMigrationTable db)) =
        pre ++ m :: post ∧
      ApplyMigration env m
        { db with inited := true,
                  records := db.records ++ pre.map recOf,
                  execLog := db.execLog ++ pre.map Migration.SQL } =
        ((RunMigrations env files db).1, some e) ∧
      (RunMigrations env files db).1.records = db.records ++ pre.map recOf ∧
      ((RunMigrations env files db).1.execLog = db.execLog ++ pre.map Migration.SQL ∨
        (RunMigrations env files db).1.execLog =
          db.execLog ++ pre.map Migration.SQL ++ [m.SQL]) := by
  have hrun : runPending env (GetAppliedMigrations (initMigrationTable db))
      (LoadMigrations files) (initMigrationTable db) =
      ((RunMigrations env files db).1, some e) := by rw [← h]; rfl
  obtain ⟨pre, m, post, hsplit, happ⟩ :=
    runPending_failure env (GetAppliedMigrations (initMigrationTable db))
      (LoadMigrations files) (initMigrationTable db) (RunMigrations env files db).1 e hrun
  obtain ⟨hr, _, hl⟩ :=
    applyMigration_error env m _ (RunMigrations env files db).1 e happ
  exact ⟨pre, m, post, hsplit, happ, hr, hl⟩

/-- Witness for C4: the body of version 2 fails; version 1 was applied and remains
committed, version 3 was never attempted. -/
theorem c4_failure_stops_run_witness :
    (∃ pre m post,
      pendingMigrations files3 (GetAppliedMigrations (initMigrationTable dbEmpty)) =
        pre ++ m :: post ∧
      ApplyMigration envExecFailB m
        { dbEmpty with inited := true,
                       records := dbEmpty.records ++ pre.map recOf,
                       execLog := dbEmpty.execLog ++ pre.map Migration.SQL } =
        ((RunMigrations envExecFailB files3 dbEmpty).1, some errB) ∧
      (RunMigrations envExecFailB files3 dbEmpty).1.records =
        dbEmpty.records ++ pre.map recOf ∧
      ((RunMigrations envExecFailB files3 dbEmpty).1.execLog =
          dbEmpty.execLog ++ pre.map Migration.SQL ∨
        (RunMigrations envExecFailB files3 dbEmpty).1.execLog =
          dbEmpty.execLog ++ pre.map Migration.SQL ++ [m.SQL])) ∧
    (RunMigrations envExecFailB files3 dbEmpty).1.execLog = ["SQLA"] ∧
    (RunMigrations envExecFailB files3 dbEmpty).1.records = [⟨1, "a"⟩] :=
  ⟨c4_failure_stops_run envExecFailB files3 dbEmpty errB (by decide),
    by decide, by decide⟩

/-- C5: running the applier again right after a successful run, with the same
migration sources, is a successful no-op: the second run returns the state of
the first run unchanged (zero additional applications, zero executed bodies,
bookkeeping store unchanged). -/
theorem c5_second_run_noop (env : Env) (files : List (String × String)) (db : DB)
    (h : (RunMigrations env files db).2 = none) :
    RunMigrations env files (RunMigrations env files db).1 =
      ((RunMigrations env files db).1, none) := by
  have hrun : runPending env (GetAppliedMigrations (initMigrationTable db))
      (LoadMigrations files) (initMigrationTable db) =
      ((RunMigrations env files db).1, none) := by rw [← h]; rfl
  have hs := runPending_success env (GetAppliedMigrations (initMigrationTable db))
    (LoadMigrations files) (initMigrationTable db) (RunMigrations env files db).1 hrun
  have hinit : initMigrationTable (RunMigrations env files db).1 =
      (RunMigrations env files db).1 :=
    initMigrationTable_eq_self _ hs.1
  have hall : ∀ m ∈ LoadMigrations files,
      m.Version ∈ GetAppliedMigrations (RunMigrations env files db).1 := by
    intro m hm
    rw [mem_getAppliedMigrations, hs.2.1, List.map_append]
    by_cases hv : m.Version ∈ GetAppliedMigrations (initMigrationTable db)
    · exact List.mem_append_left _ ((mem_getAppliedMigrations _ _).1 hv)
    · apply List.mem_append_right
      have hpend : m ∈ (LoadMigrations files).filter
          (fun x => decide (x.Version ∉ GetAppliedMigrations (initMigrationTable db))) :=
        List.mem_filter.2 ⟨hm, by simpa using hv⟩
      exact List.mem_map_of_mem AppliedRec.version (List.mem_map_of_mem recOf hpend)
  calc RunMigrations env files (RunMigrations env files db).1
      = runPending env (GetAppliedMigrations (initMigrationTable (RunMigrations env files db).1))
          (LoadMigrations files) (initMigrationTable (RunMigrations env files db).1) := rfl
    _ = ((RunMigrations env files db).1, none) := by
        rw [hinit]
        exact runPending_of_all_applied env _ (LoadMigrations files) _ hall

/-- Witness for C5 on the `[1,2,3]` directory with version 2 pre-applied. -/
theorem c5_second_run_noop_witness :
    RunMigrations envOk files3 (RunMigrations envOk files3 dbApplied2).1 =
      ((RunMigrations envOk files3 dbApplied2).1, none) :=
  c5_second_run_noop envOk files3 dbApplied2 (by decide)

/-- C6, counterexample: with two sources of the same version the applier loads
both (`LoadMigrations` does not deduplicate), so the loop visits version 1
twice and the visited sequence `[1, 1]` is not strictly ascending. -/
theorem c6_counterexample :
    visitedVersions [("1_a.sql", "x"), ("1_b.sql", "y")] = [1, 1] ∧
    ¬ List.Sorted (fun a b : Int => a < b)
        (visitedVersions [("1_a.sql", "x"), ("1_b.sql", "y")]) := by decide

/-- C6, amended: for every set of migration sources the sequence of versions
the loop of a run visits is ascending (non-decreasing); with duplicate versions
equal entries are adjacent, so the order is not strict. -/
theorem c6_amended_visited_ascending (files : List (String × String)) :
    List.Sorted (fun a b : Int => a ≤ b) (visitedVersions files) := by
  have h := List.sorted_insertionSort migLE
    (files.filterMap fun f => parseMigrationFile f.1 f.2)
  exact List.pairwise_map.2 h

/-- Witness for C6 (amended) at a concrete directory listing. -/
theorem c6_amended_visited_ascending_witness :
    List.Sorted (fun a b : Int => a ≤ b)
      (visitedVersions [("1_a.sql", "x"), ("1_b.sql", "y")]) :=
  c6_amended_visited_ascending [("1_a.sql", "x"), ("1_b.sql", "y")]

/-- C7, counterexample: `strconv.Atoi` accepts a sign, so the source
`-1_foo.sql` is loaded as a migration with the negative version `-1` rather
than being skipped or given a non-negative version. -/
theorem c7_counterexample :
    LoadMigrations [("-1_foo.sql", "SQLNEG")] = [⟨-1, "foo", "SQLNEG"⟩] ∧
    ¬ ∀ m ∈ LoadMigrations [("-1_foo.sql", "SQLNEG")], 0 ≤ m.Version := by decide

/-- C7, amended: the version of every loaded migration is a valid (possibly
negative) integer parsed by `Atoi` from the part of the identifier before the first
underscore, and the loaded list is exactly (a version-sorted permutation of)
the parseable sources — a source that does not split on an underscore or whose
part before it does not parse as an integer contributes nothing. -/
theorem c7_amended_versions_parsed (files : List (String × String)) :
    (LoadMigrations files).Perm
      (files.filterMap fun f => parseMigrationFile f.1 f.2) ∧
    ∀ m ∈ LoadMigrations files, ∃ f ∈ files, ∃ pr rest,
      splitFirst '_' f.1 = some (pr, rest) ∧ atoi pr = some m.Version ∧
      m.Name = stripSqlSuffix rest ∧ m.SQL = f.2 := by
  constructor
  · exact List.perm_insertionSort migLE _
  · intro m hm
    have hm2 : m ∈ files.filterMap fun f => parseMigrationFile f.1 f.2 :=
      (List.mem_insertionSort migLE).1 hm
    obtain ⟨f, hf, hparse⟩ := List.mem_filterMap.1 hm2
    unfold parseMigrationFile at hparse
    cases hsp : splitFirst '_' f.1 with
    | none => rw [hsp] at hparse; simp at hparse
    | some prRest =>
      cases prRest with
      | mk pr rest =>
        simp only [hsp] at hparse
        cases hat : atoi pr with
        | none =>
          simp only [hat] at hparse
          exact Option.noConfusion hparse
        | some v =>
          simp only [hat, Option.some.injEq] at hparse
          subst hparse
          exact ⟨f, hf, pr, rest, hsp, hat, rfl, rfl⟩

/-- Witness for C7 (amended) at a concrete directory listing with one source
that parses (to a negative version) and one that is skipped. -/
theorem c7_amended_versions_parsed_witness :
    (LoadMigrations [("-1_foo.sql", "SQLNEG"), ("zzz.sql", "junk")]).Perm
      ([("-1_foo.sql", "SQLNEG"), ("zzz.sql", "junk")].filterMap
        fun f => parseMigrationFile f.1 f.2) ∧
    ∀ m ∈ LoadMigrations [("-1_foo.sql", "SQLNEG"), ("zzz.sql", "junk")],
      ∃ f ∈ [("-1_foo.sql", "SQLNEG"), ("zzz.sql", "junk")], ∃ pr rest,
        splitFirst '_' f.1 = some (pr, rest) ∧ atoi pr = some m.Version ∧
        m.Name = stripSqlSuffix rest ∧ m.SQL = f.2 :=
  c7_amended_versions_parsed [("-1_foo.sql", "SQLNEG"), ("zzz.sql", "junk")]

/-- C8: a source whose identifier splits on the first underscore into an
integer-parseable part and a remainder is loaded as the migration whose
version is that integer, whose name is the remainder with a trailing `.sql`
stripped, and whose body is the full content of the file. -/
theorem c8_identifier_parsing (files : List (String × String))
    (fn content pr rest : String) (v : Int)
    (hmem : (fn, content) ∈ files)
    (hsplit : splitFirst '_' fn = some (pr, rest))
    (hv : atoi pr = some v) :
    Migration.mk v (stripSqlSuffix rest) content ∈ LoadMigrations files := by
  apply (List.mem_insertionSort migLE).2
  apply List.mem_filterMap.2
  refine ⟨(fn, content), hmem, ?_⟩
  show parseMigrationFile fn content = some (Migration.mk v (stripSqlSuffix rest) content)
  unfold parseMigrationFile
  simp only [hsplit, hv]

/-- Witness for C8 on the actual migration file of the repository,
`migrations/001_add_starred_column.sql`. -/
theorem c8_identifier_parsing_witness :
    Migration.mk 1 "add_starred_column"
        "ALTER TABLE messages ADD COLUMN starred BOOLEAN DEFAULT FALSE;" ∈
      LoadMigrations
        [("001_add_starred_column.sql",
          "ALTER TABLE messages ADD COLUMN starred BOOLEAN DEFAULT FALSE;")] :=
  c8_identifier_parsing
    [("001_add_starred_column.sql",
      "ALTER TABLE messages ADD COLUMN starred BOOLEAN DEFAULT FALSE;")]
    "001_add_starred_column.sql"
    "ALTER TABLE messages ADD COLUMN starred BOOLEAN DEFAULT FALSE;"
    "001" "add_starred_column.sql" 1 (by decide) (by decide) (by decide)

/-- A migration named `alpha` at version 7. -/
def mAlpha : Migration := ⟨7, "alpha", "S7"⟩

/-- A migration named `beta`, also at version 7 with the same body. -/
def mBeta : Migration := ⟨7, "beta", "S7"⟩

/-- C9, counterexample: the record-insertion failure is wrapped with the
version only — the Go format string is `failed to record migration %d: %w` —
so two migrations differing only in their name produce the identical error,
which therefore does not carry the name of the migration as context. -/
theorem c9_counterexample :
    (ApplyMigration envInsFail mAlpha dbInit).2 =
        some "failed to record migration 7: disk I/O error" ∧
    (ApplyMigration envInsFail mAlpha dbInit).2 =
        (ApplyMigration envInsFail mBeta dbInit).2 ∧
    mAlpha.Name ≠ mBeta.Name := by decide

/-- C9, amended: errors are propagated without retry — the error of a failing run is
exactly the error of some `ApplyMigration` call — and are wrapped with context:
a body-execution failure carries the version and the name of the migration, while a
record-insertion failure carries only its version. -/
theorem c9_amended_error_wrapping (env : Env) (m : Migration) (db : DB) (cause : String) :
    (env.execResult m.SQL = some cause →
      (ApplyMigration env m db).2 =
        some ("failed to apply migration " ++ toString m.Version ++ " (" ++
          m.Name ++ "): " ++ cause)) ∧
    (env.execResult m.SQL = none → db.inited = true →
      m.Version ∉ db.records.map AppliedRec.version →
      env.insertResult m.Version m.Name = some cause →
      (ApplyMigration env m db).2 =
        some ("failed to record migration " ++ toString m.Version ++ ": " ++ cause)) ∧
    (∀ (files : List (String × String)) (e : String),
      (RunMigrations env files db).2 = some e →
      ∃ m2 db2, (ApplyMigration env m2 db2).2 = some e) := by
  refine ⟨?_, ?_, ?_⟩
  · intro hex
    unfold ApplyMigration
    rw [hex]
  · intro hex hin hpk hins
    unfold ApplyMigration insertRecord
    rw [hex]
    simp [hin, hpk, hins]
  · intro files e h
    have hrun : runPending env (GetAppliedMigrations (initMigrationTable db))
        (LoadMigrations files) (initMigrationTable db) =
        ((RunMigrations env files db).1, some e) := by rw [← h]; rfl
    obtain ⟨_, m2, _, _, happ⟩ :=
      runPending_failure env (GetAppliedMigrations (initMigrationTable db))
        (LoadMigrations files) (initMigrationTable db) (RunMigrations env files db).1 e hrun
    exact ⟨m2, _, by rw [happ]⟩

/-- Witness for C9 (amended), checking both wrapped formats concretely. -/
theorem c9_amended_error_wrapping_witness :
    (ApplyMigration envExecFailB ⟨2, "b", "SQLB"⟩ dbInit).2 =
        some ("failed to apply migration " ++ toString (2 : Int) ++ " (" ++
          "b" ++ "): " ++ "near B: syntax error") ∧
    (ApplyMigration envInsFail mAlpha dbInit).2 =
        some ("failed to record migration " ++ toString (7 : Int) ++ ": " ++
          "disk I/O error") :=
  ⟨(c9_amended_error_wrapping envExecFailB ⟨2, "b", "SQLB"⟩ dbInit
      "near B: syntax error").1 (by decide),
   (c9_amended_error_wrapping envInsFail mAlpha dbInit "disk I/O error").2.1
      (by decide) (by decide) (by decide) (by decide)⟩

/-- A database whose table exists and already records version 2. -/
def dbHas2 : DB := ⟨true, [⟨2, "b"⟩], []⟩

/-- The already-recorded migration of version 2. -/
def mDup : Migration := ⟨2, "b", "SQLB"⟩

/-- C10: `ApplyMigration` does not consult the applied-set — called on a
migration whose version already has a row, it executes the body again (the log
gains the body and keeps it: no rollback), then fails on the insert with the
primary-key violation of the bookkeeping table, leaving the rows unchanged. -/
theorem c10_apply_ignores_applied_set (env : Env) (m : Migration) (db : DB)
    (hexec : env.execResult m.SQL = none)
    (hinited : db.inited = true)
    (hdup : m.Version ∈ db.records.map AppliedRec.version) :
    ApplyMigration env m db =
      ({ db with execLog := db.execLog ++ [m.SQL] },
        some ("failed to record migration " ++ toString m.Version ++ ": " ++
          pkViolation)) := by
  unfold ApplyMigration insertRecord
  rw [hexec]
  simp [hinited, hdup]

/-- Witness for C10: re-applying the recorded version 2 runs its body again and
fails with the unique-constraint error. -/
theorem c10_apply_ignores_applied_set_witness :
    ApplyMigration envOk mDup dbHas2 =
      ({ dbHas2 with execLog := dbHas2.execLog ++ [mDup.SQL] },
        some ("failed to record migration " ++ toString mDup.Version ++ ": " ++
          pkViolation)) ∧
    (ApplyMigration envOk mDup dbHas2).2 =
      some "failed to record migration 2: UNIQUE constraint failed: migrations.version" ∧
    (ApplyMigration envOk mDup dbHas2).1.execLog = ["SQLB"] ∧
    (ApplyMigration envOk mDup dbHas2).1.records = dbHas2.records :=
  ⟨c10_apply_ignores_applied_set envOk mDup dbHas2 (by decide) (by decide) (by decide),
    by decide, by decide, by decide⟩

end WhatsappBridge
